import Mathlib

/-!
Verification of the pacman-history tool (`CachyUpdate_History.py`).

The Python source is shallowly embedded below:
* Python strings are `List Char`; machine text operations (`str.lower`,
  substring containment, `str.split`) are executable Lean functions on
  character lists.
* `datetime` values are `PyDateTime`: the civil wall-clock encoded as
  seconds since 1970-01-01T00:00:00 of the naive fields, plus an optional
  `tzinfo`.  This encoding is bijective with the (year, month, day, hour,
  minute, second, tzinfo) representation used by CPython, via the standard
  proleptic-Gregorian conversions `daysFromCivil` / `civilFromDays`.
* `ZoneInfo("Europe/Berlin")` is modelled by the modern EU daylight-saving
  rule (CET = UTC+1, CEST = UTC+2 between the last Sundays of March and
  October, transitions at 01:00 UTC), which is the rule in force for every
  timestamp a current pacman log can contain.
* Fallible Python code (`ValueError` from `strptime` or tuple unpacking)
  returns `Option`; the `try`/`except` structure of `parse_log` is an
  `Except` value.
-/

namespace CachyHist

/-! ## Proleptic Gregorian calendar arithmetic

These functions implement the civil-calendar conversions that CPython's
`datetime` performs internally (`date.toordinal` and its inverse), shifted
to the Unix epoch.  `Int.fdiv`/`Int.fmod` are Python's floor `//` and `%`. -/

/-- Number of days from 1970-01-01 to the civil date `y`-`m`-`d`. -/
def daysFromCivil (y m d : Int) : Int :=
  let y' := if m ≤ 2 then y - 1 else y
  let era := Int.fdiv y' 400
  let yoe := y' - era * 400
  let mp := if 2 < m then m - 3 else m + 9
  let doy := Int.fdiv (153 * mp + 2) 5 + d - 1
  let doe := yoe * 365 + Int.fdiv yoe 4 - Int.fdiv yoe 100 + doy
  era * 146097 + doe - 719468

/-- Civil date (year, month, day) of an epoch day number. -/
def civilFromDays (z : Int) : Int × Int × Int :=
  let z' := z + 719468
  let era := Int.fdiv z' 146097
  let doe := z' - era * 146097
  let yoe := Int.fdiv (doe - Int.fdiv doe 1460 + Int.fdiv doe 36524 - Int.fdiv doe 146096) 365
  let y := yoe + era * 400
  let doy := doe - (365 * yoe + Int.fdiv yoe 4 - Int.fdiv yoe 100)
  let mp := Int.fdiv (5 * doy + 2) 153
  let d := doy - Int.fdiv (153 * mp + 2) 5 + 1
  let m := if mp < 10 then mp + 3 else mp - 9
  (if m ≤ 2 then y + 1 else y, m, d)

/-- Gregorian leap-year test, as validated by `datetime.date`. -/
def isLeapYear (y : Int) : Bool :=
  (Int.fmod y 4 == 0 && Int.fmod y 100 != 0) || Int.fmod y 400 == 0

/-- Number of days in month `m` of year `y` (`datetime`'s range check). -/
def daysInMonth (y m : Int) : Int :=
  if m = 2 then (if isLeapYear y then 29 else 28)
  else if m = 4 ∨ m = 6 ∨ m = 9 ∨ m = 11 then 30
  else 31

/-! ## The `Europe/Berlin` zone (`Config.LOCAL_TZ`)

Epoch day 0 (1970-01-01) was a Thursday; `(day + 4) fmod 7` is the day of
the week with Sunday = 0. -/

/-- Latest Sunday on or before the given epoch day. -/
def lastSundayOnOrBefore (day : Int) : Int := day - Int.fmod (day + 4) 7

/-- Epoch day of the last Sunday of March of year `y` (EU DST start). -/
def dstStartDay (y : Int) : Int := lastSundayOnOrBefore (daysFromCivil y 3 31)

/-- Epoch day of the last Sunday of October of year `y` (EU DST end). -/
def dstEndDay (y : Int) : Int := lastSundayOnOrBefore (daysFromCivil y 10 31)

/-- Year of an epoch day number. -/
def yearOf (day : Int) : Int := (civilFromDays day).1

/-- Whether a UTC instant (seconds) falls in Berlin's DST window: the
transitions happen at 01:00 UTC on the last Sundays of March and October. -/
def berlinDstAtInstant (t : Int) : Bool :=
  let y := yearOf (Int.fdiv t 86400)
  decide (dstStartDay y * 86400 + 3600 ≤ t) && decide (t < dstEndDay y * 86400 + 3600)

/-- UTC offset (seconds) of `Europe/Berlin` at a UTC instant. -/
def berlinOffsetAtInstant (t : Int) : Int := if berlinDstAtInstant t then 7200 else 3600

/-- Whether a Berlin wall-clock time (seconds since the epoch of the naive
fields) falls in the DST window, with `fold=0` disambiguation as in PEP 495:
wall times in the missing spring hour get the pre-gap offset, wall times in
the repeated autumn hour get the first (DST) offset.  Both conventions put
the wall-clock boundary at 03:00 local. -/
def berlinDstAtWall (w : Int) : Bool :=
  let y := yearOf (Int.fdiv w 86400)
  decide (dstStartDay y * 86400 + 10800 ≤ w) && decide (w < dstEndDay y * 86400 + 10800)

/-- UTC offset (seconds) `ZoneInfo("Europe/Berlin")` assigns to a wall-clock
reading (`tzinfo.utcoffset` of an attached naive datetime). -/
def berlinOffsetAtWall (w : Int) : Int := if berlinDstAtWall w then 7200 else 3600

/-- The timezone values this program constructs: fixed-offset zones produced
by `strptime`'s `%z`, and `ZoneInfo("Europe/Berlin")`. -/
inductive Tz where
  | fixedOffset (secs : Int)
  | berlin
deriving DecidableEq, Repr

/-- Offset a zone assigns to a local wall-clock reading. -/
def Tz.offsetAtWall : Tz → Int → Int
  | .fixedOffset s, _ => s
  | .berlin, w => berlinOffsetAtWall w

/-- Offset a zone has at a UTC instant. -/
def Tz.offsetAtInstant : Tz → Int → Int
  | .fixedOffset s, _ => s
  | .berlin, t => berlinOffsetAtInstant t

/-- A Python `datetime`: the naive civil fields encoded as seconds since the
epoch of the wall clock, plus the optional `tzinfo`. -/
structure PyDateTime where
  wall : Int
  tz : Option Tz
deriving DecidableEq, Repr

/-- Python `datetime.astimezone(z)`: convert to the UTC instant using the
current zone's offset for the wall reading, then re-express in `z`.  The
program only ever calls this on aware datetimes; the naive branch (which
CPython resolves through the system zone) is never reached and is modelled
as just attaching `z`. -/
def astimezone (dt : PyDateTime) (z : Tz) : PyDateTime :=
  match dt.tz with
  | some src =>
    let inst := dt.wall - src.offsetAtWall dt.wall
    { wall := inst + z.offsetAtInstant inst, tz := some z }
  | none => { dt with tz := some z }

/-- The point on the UTC timeline a datetime denotes; aware datetimes compare
by this value in Python. -/
def PyDateTime.instant (dt : PyDateTime) : Int :=
  match dt.tz with
  | some z => dt.wall - z.offsetAtWall dt.wall
  | none => dt.wall

/-- Python `datetime.date()`, as an epoch day number (dates compare exactly
like their day numbers). -/
def PyDateTime.date (dt : PyDateTime) : Int := Int.fdiv dt.wall 86400

namespace Config

/-- Configuration constant `LOCAL_TZ = ZoneInfo("Europe/Berlin")`. -/
def LOCAL_TZ : Tz := Tz.berlin

end Config

/-! ## `datetime.strptime`

CPython's `_strptime` compiles the format into one regular expression
(4-digit `%Y`; 1-or-2-digit `%m`, `%d`, `%H`, `%M`, `%S` with the character
classes used below; `%z` as `[+-]\d\d:?[0-5]\d` with optional seconds, or
`Z`), requires the whole string to be consumed, then builds the `datetime`,
which range-checks the fields.  The parsers below implement exactly that,
with the regex's ordered-alternative backtracking (`tryEach`). -/

/-- Value of a decimal digit character. -/
def digitVal (c : Char) : Option Nat :=
  if c.isDigit then some (c.toNat - '0'.toNat) else none

/-- Consume one expected literal character. -/
def pChar (c : Char) : List Char → Option (List Char)
  | x :: rest => if x = c then some rest else none
  | [] => none

/-- Ordered candidate parses of a 1-or-2-digit numeric field: the two-digit
alternatives of the regex come first, then the one-digit alternative, as in
`_strptime`'s alternations. -/
def alts2then1 (ok2 : Nat → Nat → Bool) (ok1 : Nat → Bool) : List Char → List (Nat × List Char)
  | c1 :: c2 :: rest =>
    match digitVal c1, digitVal c2 with
    | some d1, some d2 =>
      (if ok2 d1 d2 then [(d1 * 10 + d2, rest)] else []) ++
        (if ok1 d1 then [(d1, c2 :: rest)] else [])
    | some d1, none => if ok1 d1 then [(d1, c2 :: rest)] else []
    | none, _ => []
  | [c1] =>
    match digitVal c1 with
    | some d1 => if ok1 d1 then [(d1, [])] else []
    | none => []
  | [] => []

/-- Try candidate parses in order, backtracking into the continuation. -/
def tryEach (cands : List (Nat × List Char)) (k : Nat → List Char → Option α) : Option α :=
  match cands with
  | [] => none
  | (v, rest) :: more =>
    match k v rest with
    | some r => some r
    | none => tryEach more k

/-- Regex class for `%m`: `1[0-2]|0[1-9]|[1-9]`. -/
def monthCands : List Char → List (Nat × List Char) :=
  alts2then1 (fun d1 d2 => decide ((d1 = 1 ∧ d2 ≤ 2) ∨ (d1 = 0 ∧ 1 ≤ d2)))
    (fun d => decide (1 ≤ d))

/-- Regex class for `%d`: `3[01]|[12]\d|0[1-9]|[1-9]`. -/
def dayCands : List Char → List (Nat × List Char) :=
  alts2then1 (fun d1 d2 => decide ((d1 = 3 ∧ d2 ≤ 1) ∨ d1 = 1 ∨ d1 = 2 ∨ (d1 = 0 ∧ 1 ≤ d2)))
    (fun d => decide (1 ≤ d))

/-- Regex class for `%H`: `2[0-3]|[0-1]\d|\d`. -/
def hourCands : List Char → List (Nat × List Char) :=
  alts2then1 (fun d1 d2 => decide ((d1 = 2 ∧ d2 ≤ 3) ∨ d1 ≤ 1)) (fun _ => true)

/-- Regex class for `%M`: `[0-5]\d|\d`. -/
def minuteCands : List Char → List (Nat × List Char) :=
  alts2then1 (fun d1 _ => decide (d1 ≤ 5)) (fun _ => true)

/-- Regex class for `%S`: `6[0-1]|[0-5]\d|\d` (leap seconds match the regex
but are rejected by the `datetime` constructor). -/
def secondCands : List Char → List (Nat × List Char) :=
  alts2then1 (fun d1 d2 => decide ((d1 = 6 ∧ d2 ≤ 1) ∨ d1 ≤ 5)) (fun _ => true)

/-- Regex class for `%Y`: exactly four digits. -/
def pYear : List Char → Option (Nat × List Char)
  | c1 :: c2 :: c3 :: c4 :: rest => do
    let d1 ← digitVal c1
    let d2 ← digitVal c2
    let d3 ← digitVal c3
    let d4 ← digitVal c4
    some (((d1 * 10 + d2) * 10 + d3) * 10 + d4, rest)
  | _ => none

/-- Parse `%Y-%m-%dT%H:%M:%S` and hand the fields and the remaining input to
a continuation, with full ordered backtracking over the field widths. -/
def parseDateTimeFields (cs : List Char)
    (k : Nat → Nat → Nat → Nat → Nat → Nat → List Char → Option α) : Option α :=
  match pYear cs with
  | none => none
  | some (y, r1) =>
    match pChar '-' r1 with
    | none => none
    | some r2 =>
      tryEach (monthCands r2) fun m r3 =>
        match pChar '-' r3 with
        | none => none
        | some r4 =>
          tryEach (dayCands r4) fun d r5 =>
            match pChar 'T' r5 with
            | none => none
            | some r6 =>
              tryEach (hourCands r6) fun hh r7 =>
                match pChar ':' r7 with
                | none => none
                | some r8 =>
                  tryEach (minuteCands r8) fun mi r9 =>
                    match pChar ':' r9 with
                    | none => none
                    | some r10 =>
                      tryEach (secondCands r10) fun ss r11 => k y m d hh mi ss r11

/-- Range checks of the `datetime` constructor, then the wall-clock encoding
of the fields.  `MINYEAR = 1`, `MAXYEAR = 9999`, seconds at most 59, day
bounded by the month length. -/
def mkWall (y m d hh mi ss : Nat) : Option Int :=
  if 1 ≤ y ∧ y ≤ 9999 ∧ ss ≤ 59 ∧ (d : Int) ≤ daysInMonth (y : Int) (m : Int) then
    some (daysFromCivil (y : Int) (m : Int) (d : Int) * 86400 +
      ((hh * 3600 + mi * 60 + ss : Nat) : Int))
  else none

/-- Optional seconds part of `%z` (`(:?[0-5]\d)?`, greedy; fractional seconds
do not occur in pacman logs and are not modelled). -/
def parseZSeconds (cs : List Char) : Nat × List Char :=
  let core : List Char → Option (Nat × List Char) := fun l =>
    match l with
    | s1 :: s2 :: r =>
      match digitVal s1, digitVal s2 with
      | some a, some b => if a ≤ 5 then some (a * 10 + b, r) else none
      | _, _ => none
    | _ => none
  match cs with
  | ':' :: r =>
    match core r with
    | some (v, r') => (v, r')
    | none => (0, cs)
  | _ =>
    match core cs with
    | some (v, r') => (v, r')
    | none => (0, cs)

/-- The `%z` directive: `[+-]\d\d:?[0-5]\d` with optional seconds, or `Z`;
the resulting offset must be strictly less than 24 hours in magnitude
(`timezone` constructor check). -/
def parseZ : List Char → Option (Int × List Char)
  | 'Z' :: rest => some (0, rest)
  | c :: rest =>
    if c = '+' ∨ c = '-' then
      match rest with
      | h1 :: h2 :: r2 =>
        match digitVal h1, digitVal h2 with
        | some dh1, some dh2 =>
          let hh := dh1 * 10 + dh2
          let r3 := match r2 with
            | ':' :: r => r
            | _ => r2
          match r3 with
          | m1 :: m2 :: r4 =>
            match digitVal m1, digitVal m2 with
            | some dm1, some dm2 =>
              if dm1 ≤ 5 then
                let mm := dm1 * 10 + dm2
                let (ssec, r5) := parseZSeconds r4
                if hh ≤ 23 then
                  let total : Int := (hh * 3600 + mm * 60 + ssec : Nat)
                  some (if c = '-' then -total else total, r5)
                else none
              else none
            | _, _ => none
          | _ => none
        | _, _ => none
      | _ => none
    else none
  | [] => none

/-- Python `datetime.strptime(raw, "%Y-%m-%dT%H:%M:%S%z")`: the parsed wall
clock and the fixed UTC offset, or `none` for the `ValueError`. -/
def strptimeAware (cs : List Char) : Option (Int × Int) :=
  parseDateTimeFields cs fun y m d hh mi ss r =>
    match parseZ r with
    | none => none
    | some (off, r2) =>
      match r2 with
      | [] => (mkWall y m d hh mi ss).map (fun w => (w, off))
      | _ => none

/-- Python `datetime.strptime(raw, "%Y-%m-%dT%H:%M:%S")`: the parsed wall
clock, or `none` for the `ValueError`. -/
def strptimeNaive (cs : List Char) : Option Int :=
  parseDateTimeFields cs fun y m d hh mi ss r =>
    match r with
    | [] => mkWall y m d hh mi ss
    | _ => none

/-- The method `PacmanLogParser._parse_timestamp`: try the offset-aware
format first; on failure parse as naive and attach `Config.LOCAL_TZ`
(`replace(tzinfo=...)`); in both cases convert with
`astimezone(Config.LOCAL_TZ)`.  `none` is the `ValueError` that propagates
to the caller when neither format fits. -/
def _parse_timestamp (raw : List Char) : Option PyDateTime :=
  match strptimeAware raw with
  | some (w, off) => some (astimezone ⟨w, some (Tz.fixedOffset off)⟩ Config.LOCAL_TZ)
  | none =>
    match strptimeNaive raw with
    | some w => some (astimezone ⟨w, some Config.LOCAL_TZ⟩ Config.LOCAL_TZ)
    | none => none

/-! ## Version formatting -/

/-- The separator `" -> "` that `_format_version` splits upgraded payloads on. -/
def sepArrow : List Char := " -> ".data

/-- The glyph separator `" → "` that `_format_version` joins with. -/
def glueArrow : List Char := " → ".data

/-- Python `version.split(" -> ")`: non-overlapping, leftmost-first. -/
def splitArrow : List Char → List (List Char)
  | ' ' :: '-' :: '>' :: ' ' :: rest => [] :: splitArrow rest
  | c :: rest =>
    match splitArrow rest with
    | r :: rs => (c :: r) :: rs
    | [] => [[c]]
  | [] => [[]]

/-- The set of actions `Config.LOG_PATTERN` can capture; the closed
alternation `(installed|upgraded|removed)` justifies an enumeration. -/
inductive Action where
  | installed
  | upgraded
  | removed
deriving DecidableEq, Repr

/-- The method `PacmanLogParser._format_version`: for `upgraded`, unpack
`version.split(" -> ")` into exactly two parts and join them with `" → "`;
`none` is the `ValueError` the unpacking raises otherwise.  Other actions
pass the payload through. -/
def _format_version (action : Action) (version : List Char) : Option (List Char) :=
  match action with
  | .upgraded =>
    match splitArrow version with
    | [fromV, toV] => some (fromV ++ glueArrow ++ toV)
    | _ => none
  | _ => some version

/-! ## The line matcher `Config.LOG_PATTERN`

The pattern is
`\[(.*?)\] \[ALPM\] (installed|upgraded|removed) ([^\s]+) \((.*?)\)`,
applied with `re.search`.  The matcher below implements its exact
backtracking semantics, specialised to this pattern:

* `re.search` tries start positions left to right; a match must start at a
  literal `[`;
* the lazy group `(.*?)` (the raw timestamp) grows shortest-first, never
  across a newline (`.` excludes `\n`), retrying the rest of the pattern at
  each length — `matchAfterBracket`;
* the keyword alternation is deterministic (distinct first letters), and
  `([^\s]+) \(` forces the maximal non-whitespace run followed by a literal
  space and `(`: a shorter run would have to be followed by a space that is
  actually a non-space character of the run;
* the final `(.*?)\)` takes the characters up to the first `)`, again never
  across a newline. -/

/-- The characters of Python's `\s` class (ASCII range). -/
def pyIsSpace (c : Char) : Bool :=
  c == ' ' || c == '\t' || c == '\n' || c == '\r' || c == '\x0b' || c == '\x0c'

/-- Split off the maximal leading run of non-whitespace characters. -/
def takeNonSpace : List Char → List Char × List Char
  | [] => ([], [])
  | c :: cs =>
    if pyIsSpace c then ([], c :: cs)
    else
      let (tok, rest) := takeNonSpace cs
      (c :: tok, rest)

/-- Lazy `(.*?)\)`: the characters before the first `)`, failing at a
newline or the end of the input. -/
def lazyUpToParen : List Char → Option (List Char × List Char)
  | [] => none
  | ')' :: cs => some ([], cs)
  | '\n' :: _ => none
  | c :: cs => (lazyUpToParen cs).map (fun p => (c :: p.1, p.2))

/-- The alternation `(installed|upgraded|removed)`. -/
def parseActionKw (cs : List Char) : Option (Action × List Char) :=
  if "installed".data.isPrefixOf cs then some (.installed, cs.drop 9)
  else if "upgraded".data.isPrefixOf cs then some (.upgraded, cs.drop 8)
  else if "removed".data.isPrefixOf cs then some (.removed, cs.drop 7)
  else none

/-- A successful match of `Config.LOG_PATTERN`: the four capture groups
(raw timestamp, action, package, version payload). -/
structure RawMatch where
  rawTime : List Char
  action : Action
  package : List Char
  version : List Char
deriving DecidableEq, Repr

/-- Match `\] \[ALPM\] (installed|upgraded|removed) ([^\s]+) \((.*?)\)`
at the current position. -/
def matchTail (cs : List Char) : Option (Action × List Char × List Char) :=
  if "] [ALPM] ".data.isPrefixOf cs then
    match parseActionKw (cs.drop 9) with
    | some (act, rest1) =>
      match rest1 with
      | ' ' :: rest2 =>
        let (pkg, rest3) := takeNonSpace rest2
        if pkg.isEmpty then none
        else
          match rest3 with
          | ' ' :: '(' :: rest4 =>
            (lazyUpToParen rest4).map (fun p => (act, pkg, p.1))
          | _ => none
      | _ => none
    | none => none
  else none

/-- Grow the lazy timestamp group `(.*?)` shortest-first after an opening
`[`, retrying `matchTail` at each split, as the regex engine does; the
characters passed over become the captured raw timestamp. -/
def matchFromBracket (cs : List Char) : Option RawMatch :=
  match matchTail cs with
  | some (act, pkg, ver) => some ⟨[], act, pkg, ver⟩
  | none =>
    match cs with
    | [] => none
    | c :: cs' =>
      if c = '\n' then none
      else (matchFromBracket cs').map (fun m => { m with rawTime := c :: m.rawTime })

/-- Python `Config.LOG_PATTERN.search(line)`: leftmost match start, `none`
when no position matches. -/
def reSearch : List Char → Option RawMatch
  | [] => none
  | c :: cs =>
    if c = '[' then
      match matchFromBracket cs with
      | some m => some m
      | none => reSearch cs
    else reSearch cs

/-! ## `parse_log` -/

/-- One parsed log event, the tuple
`(timestamp, action, package, version_str)` that `parse_log` accumulates. -/
structure Entry where
  timestamp : PyDateTime
  action : Action
  package : List Char
  version : List Char
deriving DecidableEq, Repr

/-- The sort key of `sorted(entries, key=lambda x: x[0], reverse=True)`:
aware datetimes compare by their UTC instant. -/
def sortKey (x : Entry) : Int := x.timestamp.instant

/-- The comparator `sorted(..., key=lambda x: x[0], reverse=True)` sorts by:
`a` may precede `b` when `a`'s timestamp is at least `b`'s. -/
def descKey (a b : Entry) : Bool := decide (sortKey b ≤ sortKey a)

/-- The body of `parse_log`'s `for` loop under its enclosing `try`: scan the
lines in order; a non-matching line is skipped; on a matching line, a
`ValueError` from `_parse_timestamp` or `_format_version` propagates out of
the loop (aborting the scan) as `Except.error`. -/
def scanLines : List (List Char) → Except String (List Entry)
  | [] => .ok []
  | line :: rest =>
    match reSearch line with
    | none => scanLines rest
    | some m =>
      match _parse_timestamp m.rawTime with
      | none => .error "time data does not match format"
      | some ts =>
        match _format_version m.action m.version with
        | none => .error "cannot unpack version"
        | some vs =>
          match scanLines rest with
          | .ok es => .ok (⟨ts, m.action, m.package, vs⟩ :: es)
          | .error e => .error e

/-- The method `PacmanLogParser.parse_log`, as a function of the file's
lines: on a clean scan, the events sorted by timestamp descending (Python's
`sorted` with `reverse=True` is the stable descending sort, which
`List.mergeSort` with this comparator also is — stable sorts of a list by
the same total preorder coincide); when an exception escapes the loop, the
blanket `except Exception` handler returns `[]`. -/
def parse_log (lines : List (List Char)) : List Entry :=
  match scanLines lines with
  | .error _ => []
  | .ok entries => entries.mergeSort descKey

/-! ## `filter_entries` -/

/-- Python `str.lower`, character-wise. -/
def toLowerStr (s : List Char) : List Char := s.map Char.toLower

/-- Python `needle in hay` on strings: contiguous substring containment. -/
def containsSub (needle : List Char) : List Char → Bool
  | [] => needle.isEmpty
  | c :: t => needle.isPrefixOf (c :: t) || containsSub needle t

/-- Guard `start_date and timestamp.date() < start_date` (a `date` object is
always truthy). -/
def dropStart (s : Option Int) (x : Entry) : Bool :=
  match s with
  | some d => decide (x.timestamp.date < d)
  | none => false

/-- Guard `end_date and timestamp.date() > end_date`. -/
def dropEnd (e : Option Int) (x : Entry) : Bool :=
  match e with
  | some d => decide (d < x.timestamp.date)
  | none => false

/-- Guard `package and package.lower() not in pkg.lower()`: an empty
supplied string is falsy and imposes no constraint. -/
def dropPackage (p : Option (List Char)) (x : Entry) : Bool :=
  match p with
  | some q => !q.isEmpty && !containsSub (toLowerStr q) (toLowerStr x.package)
  | none => false

/-- Guard `operation and action != operation` (the CLI only supplies one of
the three non-empty keywords, so a supplied operation is always truthy). -/
def dropOperation (op : Option Action) (x : Entry) : Bool :=
  match op with
  | some a => decide (¬x.action = a)
  | none => false

/-- Python `l[:n]` for an arbitrary integer `n`: a negative stop counts from
the end, clamped at zero. -/
def pySliceTo (l : List α) (n : Int) : List α :=
  if 0 ≤ n then l.take n.toNat else l.take (l.length - (-n).toNat)

/-- The function `filter_entries`: one pass keeping entries that fail none
of the four guards, then `if limit: filtered = filtered[:limit]` (an integer
is truthy when non-zero). -/
def filter_entries (entries : List Entry) (start_date end_date : Option Int)
    (package : Option (List Char)) (operation : Option Action)
    (limit : Option Int) : List Entry :=
  let filtered := entries.filter fun x =>
    !dropStart start_date x && !dropEnd end_date x &&
      !dropPackage package x && !dropOperation operation x
  match limit with
  | some n => if n ≠ 0 then pySliceTo filtered n else filtered
  | none => filtered

/-! ## Grouping and tallies -/

/-- The key `timestamp.strftime("%Y-%m-%d")`, as the civil (year, month,
day) triple of the wall clock — equal triples correspond exactly to equal
key strings. -/
def dateKey (x : Entry) : Int × Int × Int :=
  civilFromDays (Int.fdiv x.timestamp.wall 86400)

/-- One step of `HistoryExporter._group_entries_by_date`: append the entry
to its date's bucket, or open a new bucket at the end (Python dicts preserve
insertion order). -/
def addToGroup (m : List ((Int × Int × Int) × List Entry)) (k : Int × Int × Int)
    (x : Entry) : List ((Int × Int × Int) × List Entry) :=
  match m with
  | [] => [(k, [x])]
  | (k', es) :: rest =>
    if k' = k then (k', es ++ [x]) :: rest else (k', es) :: addToGroup rest k x

/-- The method `HistoryExporter._group_entries_by_date`. -/
def _group_entries_by_date (entries : List Entry) : List ((Int × Int × Int) × List Entry) :=
  entries.foldl (fun m x => addToGroup m (dateKey x) x) []

/-- The per-action tally that `_write_date_section` and
`_write_overall_summary` keep in `daily_counts` / `total_counts`; the guard
`action in counts` always holds since `Action` is the closed keyword set. -/
def countAction (entries : List Entry) (a : Action) : Nat :=
  (entries.filter fun x => decide (x.action = a)).length

/-- The filter predicates as the specification states them: an inclusive
lower bound on the calendar date, an inclusive upper bound, case-insensitive
substring containment for the package, exact match for the action; an
absent predicate imposes no constraint. -/
def SatisfiesFilters (s e : Option Int) (p : Option (List Char)) (op : Option Action)
    (x : Entry) : Prop :=
  (match s with
   | some d => d ≤ x.timestamp.date
   | none => True) ∧
  (match e with
   | some d => x.timestamp.date ≤ d
   | none => True) ∧
  (match p with
   | some q => containsSub (toLowerStr q) (toLowerStr x.package) = true
   | none => True) ∧
  (match op with
   | some a => x.action = a
   | none => True)

/-- Concatenation of all per-date buckets, in bucket order. -/
def bucketsJoin : List ((Int × Int × Int) × List Entry) → List Entry
  | [] => []
  | (_, es) :: rest => es ++ bucketsJoin rest

/-- Inverse of `splitArrow`: interleave the parts with the separator. -/
def joinArrow : List (List Char) → List Char
  | [] => []
  | [p] => p
  | p :: ps => p ++ sepArrow ++ joinArrow ps

/-! ## Helper lemmas -/

theorem astimezone_tz (dt : PyDateTime) (z : Tz) : (astimezone dt z).tz = some z := by
  unfold astimezone
  cases dt.tz <;> rfl

theorem containsSub_nil_left (l : List Char) : containsSub [] l = true := by
  cases l <;> simp [containsSub, List.isPrefixOf]

theorem sepArrow_chars : sepArrow = [' ', '-', '>', ' '] := by decide

theorem splitArrow_sep_cons (rest : List Char) :
    splitArrow (' ' :: '-' :: '>' :: ' ' :: rest) = [] :: splitArrow rest := rfl

theorem splitArrow_cons_step (c : Char) (rest : List Char)
    (hne : ∀ rest', c = ' ' → rest = '-' :: '>' :: ' ' :: rest' → False) :
    splitArrow (c :: rest) =
      match splitArrow rest with
      | r :: rs => (c :: r) :: rs
      | [] => [[c]] := by
  rw [splitArrow.eq_def]
  split
  · rename_i rest' heq
    injection heq with h1 h2
    exact (hne rest' h1 h2).elim
  · rename_i c' rest' hno heq
    injection heq with h1 h2
    subst h1; subst h2
    rfl
  · rename_i heq
    exact List.noConfusion heq

theorem splitArrow_ne_nil (v : List Char) : splitArrow v ≠ [] := by
  induction v using splitArrow.induct with
  | case1 rest ih => rw [splitArrow_sep_cons]; simp
  | case2 c rest hne r rs hsp ih => rw [splitArrow_cons_step c rest hne, hsp]; simp
  | case3 c rest hne hsp ih => exact absurd hsp ih
  | case4 => rw [show splitArrow ([] : List Char) = [[]] from rfl]; simp

theorem joinArrow_cons_cons (p r : List Char) (rs : List (List Char)) :
    joinArrow ((p ++ r) :: rs) = p ++ joinArrow (r :: rs) := by
  cases rs <;> simp [joinArrow]

theorem joinArrow_splitArrow (v : List Char) : joinArrow (splitArrow v) = v := by
  induction v using splitArrow.induct with
  | case1 rest ih =>
    rw [splitArrow_sep_cons]
    cases hsp : splitArrow rest with
    | nil => exact absurd hsp (splitArrow_ne_nil rest)
    | cons r rs =>
      rw [hsp] at ih
      rw [show joinArrow ([] :: r :: rs) = [] ++ sepArrow ++ joinArrow (r :: rs) from rfl, ih]
      rfl
  | case2 c rest hne r rs hsp ih =>
    rw [hsp] at ih
    rw [splitArrow_cons_step c rest hne, hsp]
    show joinArrow ((c :: r) :: rs) = c :: rest
    rw [show ((c :: r) :: rs : List (List Char)) = ([c] ++ r) :: rs from rfl,
      joinArrow_cons_cons [c] r rs, ih]
    rfl
  | case3 c rest hne hsp ih => exact absurd hsp (splitArrow_ne_nil rest)
  | case4 => rfl

theorem splitArrow_pair (v a b : List Char) (h : splitArrow v = [a, b]) :
    v = a ++ sepArrow ++ b := by
  have := joinArrow_splitArrow v
  rw [h] at this
  simpa [joinArrow] using this.symm

theorem splitArrow_of_no_sep (v : List Char) (h : containsSub sepArrow v = false) :
    splitArrow v = [v] := by
  induction v using splitArrow.induct with
  | case1 rest ih =>
    exfalso
    rw [containsSub] at h
    have hpre : sepArrow.isPrefixOf (' ' :: '-' :: '>' :: ' ' :: rest) = true := by
      rw [sepArrow_chars]
      simp [List.isPrefixOf]
    rw [hpre] at h
    simp at h
  | case2 c rest hne r rs hsp ih =>
    rw [containsSub] at h
    simp only [Bool.or_eq_false_iff] at h
    have hrest := ih h.2
    rw [splitArrow_cons_step c rest hne, hrest]
  | case3 c rest hne hsp ih => exact absurd hsp (splitArrow_ne_nil rest)
  | case4 => rfl

/-! ## Claim C10 -/

/-- C10 counterexample: it is not true that only a strictly positive limit
truncates.  A limit of `-1` is non-positive yet truthy, and Python's
`filtered[:-1]` drops the last surviving entry: on three surviving entries
it returns the first two, not the uncapped list. -/
theorem c10_counterexample :
    filter_entries
      [⟨⟨200000, some Tz.berlin⟩, Action.installed, "a".data, "1".data⟩,
       ⟨⟨100000, some Tz.berlin⟩, Action.upgraded, "b".data, "2".data⟩,
       ⟨⟨0, some Tz.berlin⟩, Action.removed, "c".data, "3".data⟩]
      none none none none (some (-1)) =
      [⟨⟨200000, some Tz.berlin⟩, Action.installed, "a".data, "1".data⟩,
       ⟨⟨100000, some Tz.berlin⟩, Action.upgraded, "b".data, "2".data⟩] ∧
    filter_entries
      [⟨⟨200000, some Tz.berlin⟩, Action.installed, "a".data, "1".data⟩,
       ⟨⟨100000, some Tz.berlin⟩, Action.upgraded, "b".data, "2".data⟩,
       ⟨⟨0, some Tz.berlin⟩, Action.removed, "c".data, "3".data⟩]
      none none none none none =
      [⟨⟨200000, some Tz.berlin⟩, Action.installed, "a".data, "1".data⟩,
       ⟨⟨100000, some Tz.berlin⟩, Action.upgraded, "b".data, "2".data⟩,
       ⟨⟨0, some Tz.berlin⟩, Action.removed, "c".data, "3".data⟩] := by
  constructor <;> decide

/-- C10 as amended: a limit of `0` is falsy and applies no cap — the result
equals the list of entries surviving the other predicates, not the empty
list.  But zero is the only limit that does not truncate: any non-zero
limit is truthy and slices the surviving list as Python's
`filtered[:limit]` — a positive `n` keeps the first `n` surviving entries,
and a negative `n` also truncates, keeping all but the last `-n` of them
(clamped at zero). -/
theorem c10_amended_limit_semantics (entries : List Entry) (s e : Option Int)
    (p : Option (List Char)) (op : Option Action) :
    filter_entries entries s e p op (some 0) = filter_entries entries s e p op none ∧
    (∀ n : Int, 0 < n → filter_entries entries s e p op (some n) =
      (filter_entries entries s e p op none).take n.toNat) ∧
    (∀ n : Int, n < 0 → filter_entries entries s e p op (some n) =
      (filter_entries entries s e p op none).take
        ((filter_entries entries s e p op none).length - (-n).toNat)) := by
  refine ⟨by simp [filter_entries], ?_, ?_⟩
  · intro n hn
    show (if n ≠ 0 then pySliceTo _ n else _) = _
    rw [if_pos (ne_of_gt hn)]
    unfold pySliceTo
    rw [if_pos (le_of_lt hn)]
    rfl
  · intro n hn
    show (if n ≠ 0 then pySliceTo _ n else _) = _
    rw [if_pos (ne_of_lt hn)]
    unfold pySliceTo
    rw [if_neg (not_le.mpr hn)]
    rfl

/-- Witness for C10's amended claim: on three surviving entries, limit `2`
keeps the first two and limit `-1` keeps all but the last. -/
theorem c10_amended_limit_semantics_witness :
    filter_entries
      [⟨⟨200000, some Tz.berlin⟩, Action.installed, "a".data, "1".data⟩,
       ⟨⟨100000, some Tz.berlin⟩, Action.upgraded, "b".data, "2".data⟩,
       ⟨⟨0, some Tz.berlin⟩, Action.removed, "c".data, "3".data⟩]
      none none none none (some 2) =
      (filter_entries
        [⟨⟨200000, some Tz.berlin⟩, Action.installed, "a".data, "1".data⟩,
         ⟨⟨100000, some Tz.berlin⟩, Action.upgraded, "b".data, "2".data⟩,
         ⟨⟨0, some Tz.berlin⟩, Action.removed, "c".data, "3".data⟩]
        none none none none none).take (2 : Int).toNat ∧
    filter_entries
      [⟨⟨200000, some Tz.berlin⟩, Action.installed, "a".data, "1".data⟩,
       ⟨⟨100000, some Tz.berlin⟩, Action.upgraded, "b".data, "2".data⟩,
       ⟨⟨0, some Tz.berlin⟩, Action.removed, "c".data, "3".data⟩]
      none none none none (some (-1)) =
      (filter_entries
        [⟨⟨200000, some Tz.berlin⟩, Action.installed, "a".data, "1".data⟩,
         ⟨⟨100000, some Tz.berlin⟩, Action.upgraded, "b".data, "2".data⟩,
         ⟨⟨0, some Tz.berlin⟩, Action.removed, "c".data, "3".data⟩]
        none none none none none).take
        ((filter_entries
          [⟨⟨200000, some Tz.berlin⟩, Action.installed, "a".data, "1".data⟩,
           ⟨⟨100000, some Tz.berlin⟩, Action.upgraded, "b".data, "2".data⟩,
           ⟨⟨0, some Tz.berlin⟩, Action.removed, "c".data, "3".data⟩]
          none none none none none).length - (-(-1) : Int).toNat) :=
  ⟨(c10_amended_limit_semantics
      [⟨⟨200000, some Tz.berlin⟩, Action.installed, "a".data, "1".data⟩,
       ⟨⟨100000, some Tz.berlin⟩, Action.upgraded, "b".data, "2".data⟩,
       ⟨⟨0, some Tz.berlin⟩, Action.removed, "c".data, "3".data⟩]
      none none none none).2.1 2 (by decide),
   (c10_amended_limit_semantics
      [⟨⟨200000, some Tz.berlin⟩, Action.installed, "a".data, "1".data⟩,
       ⟨⟨100000, some Tz.berlin⟩, Action.upgraded, "b".data, "2".data⟩,
       ⟨⟨0, some Tz.berlin⟩, Action.removed, "c".data, "3".data⟩]
      none none none none).2.2 (-1) (by decide)⟩

/-! ## Claim C8 -/

/-- C8: `_format_version` passes the payload through unchanged for
`installed` and `removed`; for `upgraded` it splits the payload on the
separator `" -> "` into source and target and joins them with the arrow
glyph, and a payload that does not split into exactly two parts (in
particular one lacking the separator entirely) is a formatting error. -/
theorem c8_version_formatter (v : List Char) :
    (_format_version .installed v = some v ∧ _format_version .removed v = some v) ∧
    (∀ a b, splitArrow v = [a, b] →
      v = a ++ sepArrow ++ b ∧ _format_version .upgraded v = some (a ++ glueArrow ++ b)) ∧
    ((splitArrow v).length ≠ 2 → _format_version .upgraded v = none) ∧
    (containsSub sepArrow v = false → _format_version .upgraded v = none) := by
  refine ⟨⟨rfl, rfl⟩, ?_, ?_, ?_⟩
  · intro a b h
    refine ⟨splitArrow_pair v a b h, ?_⟩
    simp [_format_version, h]
  · intro h
    unfold _format_version
    cases hsp : splitArrow v with
    | nil => rfl
    | cons x xs =>
      cases xs with
      | nil => rfl
      | cons y ys =>
        cases ys with
        | nil => rw [hsp] at h; simp at h
        | cons z zs => rfl
  · intro h
    have := splitArrow_of_no_sep v h
    simp [_format_version, this]

/-- Witness for C8 at the specification's scenario line payload. -/
theorem c8_version_formatter_witness :
    "8.1.0-1 -> 8.2.0-1".data = "8.1.0-1".data ++ sepArrow ++ "8.2.0-1".data ∧
    _format_version .upgraded "8.1.0-1 -> 8.2.0-1".data =
      some ("8.1.0-1".data ++ glueArrow ++ "8.2.0-1".data) :=
  (c8_version_formatter "8.1.0-1 -> 8.2.0-1".data).2.1 "8.1.0-1".data "8.2.0-1".data
    (by decide)

/-! ## Claim C6 -/

/-- C6 counterexample: re-deriving the formatted version string from an
already-formatted upgraded string does not yield the same string again —
the formatted string no longer contains `" -> "`, so the re-derivation is a
`ValueError`, not a fixed point. -/
theorem c6_counterexample :
    _format_version .upgraded "8.1.0-1 -> 8.2.0-1".data =
      some "8.1.0-1 → 8.2.0-1".data ∧
    _format_version .upgraded "8.1.0-1 → 8.2.0-1".data = none := by
  constructor <;> decide

/-- C6 as amended: version formatting is deterministic (it is a pure
function of action and payload), and idempotent for `installed` and
`removed`, whose payloads pass through; for `upgraded` the formatter has no
fixed point at all, so re-deriving an already-formatted string never
returns it unchanged. -/
theorem c6_amended_idempotence (v w : List Char) :
    (_format_version .installed v = some v ∧ _format_version .removed v = some v) ∧
    _format_version .upgraded w ≠ some w := by
  refine ⟨⟨rfl, rfl⟩, ?_⟩
  intro h
  unfold _format_version at h
  cases hsp : splitArrow w with
  | nil => rw [hsp] at h; exact Option.noConfusion h
  | cons x xs =>
    cases xs with
    | nil => rw [hsp] at h; exact Option.noConfusion h
    | cons y ys =>
      cases ys with
      | nil =>
        rw [hsp] at h
        have hw : w = x ++ glueArrow ++ y := (Option.some.inj h).symm
        have hw' : w = x ++ sepArrow ++ y := splitArrow_pair w x y hsp
        have := congrArg List.length (hw.symm.trans hw')
        simp [sepArrow, glueArrow] at this
      | cons z zs => rw [hsp] at h; exact Option.noConfusion h

/-- Witness for C6's amended claim: the passthrough actions are idempotent
on the scenario payload. -/
theorem c6_amended_idempotence_witness :
    _format_version .installed "9.0.1-1".data = some "9.0.1-1".data ∧
    _format_version .removed "9.0.1-1".data = some "9.0.1-1".data :=
  (c6_amended_idempotence "9.0.1-1".data []).1

/-! ## Claim C3 -/

/-- C3: `_parse_timestamp` attempts the offset-aware parse first; only when
that fails does it parse the string as offset-naive and attach the
configured local zone; in both success cases the returned datetime carries
the one fixed canonical zone; a string matching neither shape is a parse
error (`none`). -/
theorem c3_timestamp_normalization (raw : List Char) :
    (∀ dt, _parse_timestamp raw = some dt → dt.tz = some Config.LOCAL_TZ) ∧
    (∀ w off, strptimeAware raw = some (w, off) →
      _parse_timestamp raw =
        some (astimezone ⟨w, some (Tz.fixedOffset off)⟩ Config.LOCAL_TZ)) ∧
    (strptimeAware raw = none → ∀ w, strptimeNaive raw = some w →
      _parse_timestamp raw = some (astimezone ⟨w, some Config.LOCAL_TZ⟩ Config.LOCAL_TZ)) ∧
    (strptimeAware raw = none → strptimeNaive raw = none →
      _parse_timestamp raw = none) := by
  refine ⟨?_, ?_, ?_, ?_⟩
  · intro dt h
    unfold _parse_timestamp at h
    cases ha : strptimeAware raw with
    | some wo =>
      rw [ha] at h
      cases (Option.some.inj h).symm
      exact astimezone_tz _ _
    | none =>
      rw [ha] at h
      cases hn : strptimeNaive raw with
      | some w =>
        rw [hn] at h
        cases (Option.some.inj h).symm
        exact astimezone_tz _ _
      | none =>
        rw [hn] at h
        exact Option.noConfusion h
  · intro w off h
    unfold _parse_timestamp
    rw [h]
  · intro ha w hn
    unfold _parse_timestamp
    rw [ha, hn]
  · intro ha hn
    unfold _parse_timestamp
    rw [ha, hn]

/-- Witness for C3 on the naive-fallback branch: a bare timestamp string
gets the configured local zone attached and is returned in it. -/
theorem c3_timestamp_normalization_witness :
    _parse_timestamp "2024-01-15T10:30:00".data =
      some (astimezone ⟨1705314600, some Config.LOCAL_TZ⟩ Config.LOCAL_TZ) :=
  (c3_timestamp_normalization "2024-01-15T10:30:00".data).2.2.1 (by decide) 1705314600
    (by decide)

/-! ## Claim C9 -/

theorem scanLines_skip (line : List Char) (h : reSearch line = none) :
    ∀ pre post, scanLines (pre ++ line :: post) = scanLines (pre ++ post) := by
  intro pre post
  induction pre with
  | nil =>
    show scanLines (line :: post) = scanLines post
    simp only [scanLines, h]
  | cons p ps ih =>
    show scanLines (p :: (ps ++ line :: post)) = scanLines (p :: (ps ++ post))
    simp only [scanLines, ih]

/-- C9: a line the pattern does not match produces no event and no error:
the parse of any log containing it equals the parse of the log with that
line removed, wherever the line sits. -/
theorem c9_nonmatching_line_skipped (pre post : List (List Char)) (line : List Char)
    (h : reSearch line = none) :
    parse_log (pre ++ line :: post) = parse_log (pre ++ post) := by
  unfold parse_log
  rw [scanLines_skip line h pre post]

/-- Witness for C9: a `[PACMAN]` status line (no `[ALPM]` tag) is skipped;
the hypothesis discharge checks it does not match the pattern. -/
theorem c9_nonmatching_line_skipped_witness :
    parse_log ["[2024-01-15T10:30:00+0100] [ALPM] installed vim (9.0.1-1)\n".data,
      "[2024-01-15T10:31:00+0100] [PACMAN] synchronizing package lists\n".data] =
    parse_log ["[2024-01-15T10:30:00+0100] [ALPM] installed vim (9.0.1-1)\n".data] :=
  c9_nonmatching_line_skipped
    ["[2024-01-15T10:30:00+0100] [ALPM] installed vim (9.0.1-1)\n".data] []
    "[2024-01-15T10:31:00+0100] [PACMAN] synchronizing package lists\n".data
    (by decide)

/-! ## Claim C1 -/

/-- C1 (code bug): a matched line whose version payload fails its decode
aborts the whole scan.  The blanket `except Exception` in `parse_log`
catches the `ValueError` raised mid-loop and returns `[]`, so the valid
first line's event is discarded too — the claim (and §7 of the spec) says
only the offending line is dropped.  The second conjunct shows the same
first line alone does produce its event. -/
theorem c1_field_decode_error_aborts_scan :
    parse_log ["[2024-01-15T10:30:00+0100] [ALPM] installed vim (9.0.1-1)\n".data,
      "[2024-01-15T11:00:00+0100] [ALPM] upgraded curl (8.1.0-1)\n".data] = [] ∧
    parse_log ["[2024-01-15T10:30:00+0100] [ALPM] installed vim (9.0.1-1)\n".data] =
      [⟨⟨1705314600, some Tz.berlin⟩, Action.installed, "vim".data, "9.0.1-1".data⟩] := by
  constructor
  · rfl
  · have h : scanLines ["[2024-01-15T10:30:00+0100] [ALPM] installed vim (9.0.1-1)\n".data] =
      Except.ok [⟨⟨1705314600, some Tz.berlin⟩, Action.installed,
        "vim".data, "9.0.1-1".data⟩] := by rfl
    unfold parse_log
    rw [h]
    exact List.mergeSort_singleton _

/-! ## Claim C4 -/

theorem keep_iff_satisfies (s e : Option Int) (p : Option (List Char)) (op : Option Action)
    (x : Entry) :
    (!dropStart s x && !dropEnd e x && !dropPackage p x && !dropOperation op x) = true ↔
      SatisfiesFilters s e p op x := by
  unfold SatisfiesFilters
  have hs : (!dropStart s x) = true ↔
      (match s with
       | some d => d ≤ x.timestamp.date
       | none => True) := by
    cases s <;> simp [dropStart]
  have he : (!dropEnd e x) = true ↔
      (match e with
       | some d => x.timestamp.date ≤ d
       | none => True) := by
    cases e <;> simp [dropEnd]
  have hp : (!dropPackage p x) = true ↔
      (match p with
       | some q => containsSub (toLowerStr q) (toLowerStr x.package) = true
       | none => True) := by
    cases p with
    | none => simp [dropPackage]
    | some q =>
      by_cases hq : q = []
      · subst hq
        simp [dropPackage, toLowerStr, containsSub_nil_left]
      · simp [dropPackage, List.isEmpty_iff, hq]
  have ho : (!dropOperation op x) = true ↔
      (match op with
       | some a => x.action = a
       | none => True) := by
    cases op <;> simp [dropOperation]
  rw [← hs, ← he, ← hp, ← ho]
  simp [and_assoc]

/-- C4: with no cap supplied, `filter_entries` returns an order-preserving
subsequence of its input in which every included entry satisfies all the
supplied predicates (inclusive date bounds on the calendar date,
case-insensitive package substring, exact action match) and every excluded
entry violates at least one; absent predicates impose no constraint. -/
theorem c4_filter_entries_characterization (entries : List Entry) (s e : Option Int)
    (p : Option (List Char)) (op : Option Action) :
    (filter_entries entries s e p op none).Sublist entries ∧
    (∀ x ∈ filter_entries entries s e p op none, SatisfiesFilters s e p op x) ∧
    (∀ x ∈ entries, SatisfiesFilters s e p op x →
      x ∈ filter_entries entries s e p op none) := by
  have hfe : filter_entries entries s e p op none =
      entries.filter fun x =>
        !dropStart s x && !dropEnd e x && !dropPackage p x && !dropOperation op x := rfl
  refine ⟨?_, ?_, ?_⟩
  · rw [hfe]
    exact List.filter_sublist entries
  · intro x hx
    rw [hfe] at hx
    exact (keep_iff_satisfies s e p op x).mp (List.mem_filter.mp hx).2
  · intro x hx hsat
    rw [hfe]
    exact List.mem_filter.mpr ⟨hx, (keep_iff_satisfies s e p op x).mpr hsat⟩

/-- Witness for C4, on the specification's scenario: a `"lib"` package
filter keeps `LIBBAR` (case-insensitive containment) among unrelated
entries. -/
theorem c4_filter_entries_characterization_witness :
    (⟨⟨0, some Tz.berlin⟩, Action.installed, "LIBBAR".data, "1.0-1".data⟩ : Entry) ∈
      filter_entries
        [⟨⟨0, some Tz.berlin⟩, Action.installed, "other".data, "2.0-1".data⟩,
         ⟨⟨0, some Tz.berlin⟩, Action.installed, "LIBBAR".data, "1.0-1".data⟩]
        none none (some "lib".data) none none :=
  (c4_filter_entries_characterization
      [⟨⟨0, some Tz.berlin⟩, Action.installed, "other".data, "2.0-1".data⟩,
       ⟨⟨0, some Tz.berlin⟩, Action.installed, "LIBBAR".data, "1.0-1".data⟩]
      none none (some "lib".data) none).2.2
    ⟨⟨0, some Tz.berlin⟩, Action.installed, "LIBBAR".data, "1.0-1".data⟩
    (by decide) ⟨trivial, trivial, by decide, trivial⟩

/-! ## Claim C5 -/

/-- C5: for a positive cap `n` with more than `n` survivors of the other
filters, the cap is applied last: the result is exactly the first `n`
surviving entries of the already-filtered sequence, it has length exactly
`n`, and—when the input is sorted by descending timestamp—every returned
entry is at least as recent as every surviving entry that the cap cut
off. -/
theorem c5_cap_keeps_most_recent (entries : List Entry) (s e : Option Int)
    (p : Option (List Char)) (op : Option Action) (n : Int)
    (hn : 0 < n)
    (hM : n.toNat < (filter_entries entries s e p op none).length) :
    filter_entries entries s e p op (some n) =
      (filter_entries entries s e p op none).take n.toNat ∧
    (filter_entries entries s e p op (some n)).length = n.toNat ∧
    ((entries.Pairwise fun a b => sortKey b ≤ sortKey a) →
      ∀ x ∈ (filter_entries entries s e p op none).drop n.toNat,
        ∀ y ∈ filter_entries entries s e p op (some n), sortKey x ≤ sortKey y) := by
  have hne : n ≠ 0 := ne_of_gt hn
  have htake : filter_entries entries s e p op (some n) =
      (filter_entries entries s e p op none).take n.toNat := by
    show (if n ≠ 0 then pySliceTo _ n else _) = _
    rw [if_pos hne]
    unfold pySliceTo
    rw [if_pos (le_of_lt hn)]
    rfl
  refine ⟨htake, ?_, ?_⟩
  · rw [htake, List.length_take]
    exact Nat.min_eq_left (Nat.le_of_lt hM)
  · intro hsorted x hx y hy
    rw [htake] at hy
    have hsub : (filter_entries entries s e p op none).Sublist entries :=
      (c4_filter_entries_characterization entries s e p op).1
    have hpf : (filter_entries entries s e p op none).Pairwise
        fun a b => sortKey b ≤ sortKey a := hsorted.sublist hsub
    have hsplit := List.take_append_drop n.toNat (filter_entries entries s e p op none)
    rw [← hsplit] at hpf
    have := (List.pairwise_append.mp hpf).2.2
    exact this y hy x hx

/-- Witness for C5: capping three all-surviving entries at 2 keeps exactly
the first two of the descending-time sequence. -/
theorem c5_cap_keeps_most_recent_witness :
    (filter_entries
      [⟨⟨200000, some Tz.berlin⟩, Action.installed, "a".data, "1".data⟩,
       ⟨⟨100000, some Tz.berlin⟩, Action.upgraded, "b".data, "2".data⟩,
       ⟨⟨0, some Tz.berlin⟩, Action.removed, "c".data, "3".data⟩]
      none none none none (some 2)).length = (2 : Int).toNat :=
  (c5_cap_keeps_most_recent
      [⟨⟨200000, some Tz.berlin⟩, Action.installed, "a".data, "1".data⟩,
       ⟨⟨100000, some Tz.berlin⟩, Action.upgraded, "b".data, "2".data⟩,
       ⟨⟨0, some Tz.berlin⟩, Action.removed, "c".data, "3".data⟩]
      none none none none 2 (by decide) (by decide)).2.1

/-! ## Claim C2 -/

theorem descKey_trans (a b c : Entry) (hab : descKey a b) (hbc : descKey b c) :
    descKey a c := by
  simp only [descKey, decide_eq_true_eq] at hab hbc ⊢
  omega

theorem descKey_total (a b : Entry) : descKey a b || descKey b a := by
  simp only [descKey, Bool.or_eq_true, decide_eq_true_eq]
  omega

theorem mergeSort_filter_same_key (l : List Entry) (t : Int) :
    (List.mergeSort l descKey).filter (fun x => decide (sortKey x = t)) =
      l.filter (fun x => decide (sortKey x = t)) := by
  have hsub : (l.filter (fun x => decide (sortKey x = t))).Sublist l := List.filter_sublist l
  have hpw : (l.filter (fun x => decide (sortKey x = t))).Pairwise
      fun a b => descKey a b = true := by
    apply List.pairwise_of_forall_mem_list
    intro a ha b hb
    have ha' := of_decide_eq_true (List.mem_filter.mp ha).2
    have hb' := of_decide_eq_true (List.mem_filter.mp hb).2
    simp [descKey, ha', hb']
  have hst : (l.filter (fun x => decide (sortKey x = t))).Sublist (List.mergeSort l descKey) :=
    List.sublist_mergeSort descKey_trans descKey_total hpw hsub
  have hself : (l.filter (fun x => decide (sortKey x = t))).filter
      (fun x => decide (sortKey x = t)) = l.filter (fun x => decide (sortKey x = t)) :=
    List.filter_eq_self.mpr (fun a ha => (List.mem_filter.mp ha).2)
  have h2 : (l.filter (fun x => decide (sortKey x = t))).Sublist
      ((List.mergeSort l descKey).filter (fun x => decide (sortKey x = t))) := by
    have := hst.filter (fun x => decide (sortKey x = t))
    rwa [hself] at this
  have hlen : (l.filter (fun x => decide (sortKey x = t))).length =
      ((List.mergeSort l descKey).filter (fun x => decide (sortKey x = t))).length :=
    (((List.mergeSort_perm l descKey).filter (fun x => decide (sortKey x = t))).length_eq).symm
  exact (h2.eq_of_length hlen).symm

/-- C2: the sequence `parse_log` returns is non-increasing in timestamp
(most recent first), and the sort is stable: for each timestamp value, the
entries carrying it appear in the same relative order in which the scan of
the input file produced them. -/
theorem c2_parse_log_sorted_and_stable (lines : List (List Char)) :
    ((parse_log lines).Pairwise fun a b => sortKey b ≤ sortKey a) ∧
    (∀ scanned, scanLines lines = .ok scanned →
      ∀ t : Int, (parse_log lines).filter (fun x => decide (sortKey x = t)) =
        scanned.filter (fun x => decide (sortKey x = t))) := by
  constructor
  · cases h : scanLines lines with
    | error err =>
      simp only [parse_log, h]
      exact List.Pairwise.nil
    | ok entries =>
      have hpl : parse_log lines = entries.mergeSort descKey := by
        simp [parse_log, h]
      rw [hpl]
      have hs := List.sorted_mergeSort descKey_trans descKey_total entries
      exact hs.imp (fun hab => by simpa [descKey] using hab)
  · intro scanned h t
    have hpl : parse_log lines = scanned.mergeSort descKey := by
      simp [parse_log, h]
    rw [hpl]
    exact mergeSort_filter_same_key scanned t

/-- Witness for C2 at two same-instant lines: the descending sort keeps
their file order. -/
theorem c2_parse_log_sorted_and_stable_witness :
    (parse_log ["[2024-01-15T10:30:00+0100] [ALPM] upgraded curl (8.1.0-1 -> 8.2.0-1)\n".data,
        "[2024-01-15T10:30:00+0100] [ALPM] installed vim (9.0.1-1)\n".data]).filter
      (fun x => decide (sortKey x = 1705311000)) =
    ([⟨⟨1705314600, some Tz.berlin⟩, Action.upgraded, "curl".data,
        "8.1.0-1 → 8.2.0-1".data⟩,
      ⟨⟨1705314600, some Tz.berlin⟩, Action.installed, "vim".data,
        "9.0.1-1".data⟩] : List Entry).filter
      (fun x => decide (sortKey x = 1705311000)) :=
  (c2_parse_log_sorted_and_stable
      ["[2024-01-15T10:30:00+0100] [ALPM] upgraded curl (8.1.0-1 -> 8.2.0-1)\n".data,
       "[2024-01-15T10:30:00+0100] [ALPM] installed vim (9.0.1-1)\n".data]).2
    [⟨⟨1705314600, some Tz.berlin⟩, Action.upgraded, "curl".data,
        "8.1.0-1 → 8.2.0-1".data⟩,
     ⟨⟨1705314600, some Tz.berlin⟩, Action.installed, "vim".data, "9.0.1-1".data⟩]
    (by rfl) 1705311000

/-! ## Claim C7 -/

theorem bucketsJoin_addToGroup (m : List ((Int × Int × Int) × List Entry))
    (k : Int × Int × Int) (x : Entry) :
    (bucketsJoin (addToGroup m k x)).Perm (bucketsJoin m ++ [x]) := by
  induction m with
  | nil => simp [addToGroup, bucketsJoin]
  | cons b rest ih =>
    obtain ⟨k', es⟩ := b
    by_cases hk : k' = k
    · simp only [addToGroup, if_pos hk, bucketsJoin, List.append_assoc]
      exact List.Perm.append_left es List.perm_append_comm
    · simp only [addToGroup, if_neg hk, bucketsJoin, List.append_assoc]
      exact List.Perm.append_left es ih

theorem bucketsJoin_foldl (entries : List Entry) :
    ∀ m, (bucketsJoin (entries.foldl (fun m x => addToGroup m (dateKey x) x) m)).Perm
      (bucketsJoin m ++ entries) := by
  induction entries with
  | nil => intro m; simp
  | cons x xs ih =>
    intro m
    refine (ih (addToGroup m (dateKey x) x)).trans ?_
    refine ((bucketsJoin_addToGroup m (dateKey x) x).append_right xs).trans ?_
    rw [List.append_assoc, List.singleton_append]

theorem addToGroup_dates (k0 : Int × Int × Int) (x0 : Entry) (hx : dateKey x0 = k0) :
    ∀ m, (∀ k es, (k, es) ∈ m → ∀ y ∈ es, dateKey y = k) →
      ∀ k es, (k, es) ∈ addToGroup m k0 x0 → ∀ y ∈ es, dateKey y = k := by
  intro m
  induction m with
  | nil =>
    intro hinv k es hmem y hy
    simp only [addToGroup, List.mem_singleton, Prod.mk.injEq] at hmem
    obtain ⟨hk, hes⟩ := hmem
    subst hk
    subst hes
    simp only [List.mem_singleton] at hy
    subst hy
    exact hx
  | cons b rest ih =>
    obtain ⟨k', es'⟩ := b
    intro hinv k es hmem y hy
    by_cases hkk : k' = k0
    · rw [show addToGroup ((k', es') :: rest) k0 x0 =
        (k', es' ++ [x0]) :: rest from by simp [addToGroup, hkk]] at hmem
      rcases List.mem_cons.mp hmem with hhead | htail
      · injection hhead with h1 h2
        subst h1
        subst h2
        rcases List.mem_append.mp hy with hy1 | hy2
        · exact hinv k es' (List.mem_cons_self _ _) y hy1
        · simp only [List.mem_singleton] at hy2
          subst hy2
          rw [hx, hkk]
      · exact hinv k es (List.mem_cons_of_mem _ htail) y hy
    · rw [show addToGroup ((k', es') :: rest) k0 x0 =
        (k', es') :: addToGroup rest k0 x0 from by simp [addToGroup, hkk]] at hmem
      rcases List.mem_cons.mp hmem with hhead | htail
      · injection hhead with h1 h2
        subst h1
        subst h2
        exact hinv k es (List.mem_cons_self _ _) y hy
      · exact ih (fun k1 es1 h1 => hinv k1 es1 (List.mem_cons_of_mem _ h1)) k es htail y hy

theorem groupDates_inv (entries : List Entry) :
    ∀ m, (∀ k es, (k, es) ∈ m → ∀ y ∈ es, dateKey y = k) →
      ∀ k es, (k, es) ∈ entries.foldl (fun m x => addToGroup m (dateKey x) x) m →
        ∀ y ∈ es, dateKey y = k := by
  induction entries with
  | nil => intro m hinv; exact hinv
  | cons x xs ih =>
    intro m hinv
    exact ih _ (addToGroup_dates (dateKey x) x rfl m hinv)

theorem addToGroup_keys_mem (k0 : Int × Int × Int) (x0 : Entry) :
    ∀ m k, k ∈ (addToGroup m k0 x0).map Prod.fst → k ∈ m.map Prod.fst ∨ k = k0 := by
  intro m
  induction m with
  | nil =>
    intro k hk
    simp only [addToGroup, List.map_cons, List.map_nil, List.mem_singleton] at hk
    right
    exact hk
  | cons b rest ih =>
    obtain ⟨k', es'⟩ := b
    intro k hk
    by_cases h : k' = k0
    · rw [show addToGroup ((k', es') :: rest) k0 x0 =
        (k', es' ++ [x0]) :: rest from by simp [addToGroup, h]] at hk
      simp only [List.map_cons, List.mem_cons] at hk ⊢
      tauto
    · rw [show addToGroup ((k', es') :: rest) k0 x0 =
        (k', es') :: addToGroup rest k0 x0 from by simp [addToGroup, h]] at hk
      simp only [List.map_cons, List.mem_cons] at hk ⊢
      rcases hk with h1 | h2
      · tauto
      · rcases ih k h2 with h3 | h4
        · tauto
        · tauto

theorem addToGroup_keys_nodup (k0 : Int × Int × Int) (x0 : Entry) :
    ∀ m, (m.map Prod.fst).Nodup → ((addToGroup m k0 x0).map Prod.fst).Nodup := by
  intro m
  induction m with
  | nil =>
    intro _
    simp [addToGroup]
  | cons b rest ih =>
    obtain ⟨k', es'⟩ := b
    intro h
    simp only [List.map_cons, List.nodup_cons] at h
    obtain ⟨hk', hrest⟩ := h
    by_cases hkk : k' = k0
    · rw [show addToGroup ((k', es') :: rest) k0 x0 =
        (k', es' ++ [x0]) :: rest from by simp [addToGroup, hkk]]
      simp only [List.map_cons, List.nodup_cons]
      exact ⟨hk', hrest⟩
    · rw [show addToGroup ((k', es') :: rest) k0 x0 =
        (k', es') :: addToGroup rest k0 x0 from by simp [addToGroup, hkk]]
      simp only [List.map_cons, List.nodup_cons]
      refine ⟨?_, ih hrest⟩
      intro hmem
      rcases addToGroup_keys_mem k0 x0 rest k' hmem with h1 | h2
      · exact hk' h1
      · exact hkk h2

theorem groupKeys_nodup (entries : List Entry) :
    ∀ m, (m.map Prod.fst).Nodup →
      ((entries.foldl (fun m x => addToGroup m (dateKey x) x) m).map Prod.fst).Nodup := by
  induction entries with
  | nil => intro m h; exact h
  | cons x xs ih =>
    intro m h
    exact ih _ (addToGroup_keys_nodup (dateKey x) x m h)

theorem countAction_append (l1 l2 : List Entry) (a : Action) :
    countAction (l1 ++ l2) a = countAction l1 a + countAction l2 a := by
  simp [countAction, List.filter_append]

theorem countAction_bucketsJoin (gs : List ((Int × Int × Int) × List Entry)) (a : Action) :
    countAction (bucketsJoin gs) a = (gs.map fun g => countAction g.2 a).sum := by
  induction gs with
  | nil => simp [bucketsJoin, countAction]
  | cons g rest ih =>
    obtain ⟨k, es⟩ := g
    simp [bucketsJoin, countAction_append, ih]

theorem countAction_perm (l1 l2 : List Entry) (h : l1.Perm l2) (a : Action) :
    countAction l1 a = countAction l2 a := by
  unfold countAction
  exact (h.filter _).length_eq

/-- C7: grouping by calendar date partitions the entry list — the buckets
concatenate to a permutation of the input (no duplication, no loss), each
bucket holds only entries of its own date key and the keys are pairwise
distinct (so each entry lies in exactly one bucket), and the per-date
per-action tallies sum to the overall per-action tally. -/
theorem c7_grouping_partitions (entries : List Entry) :
    (bucketsJoin (_group_entries_by_date entries)).Perm entries ∧
    (∀ k es, (k, es) ∈ _group_entries_by_date entries → ∀ y ∈ es, dateKey y = k) ∧
    ((_group_entries_by_date entries).map Prod.fst).Nodup ∧
    (∀ a : Action,
      ((_group_entries_by_date entries).map fun g => countAction g.2 a).sum =
        countAction entries a) := by
  have hperm : (bucketsJoin (_group_entries_by_date entries)).Perm entries := by
    have := bucketsJoin_foldl entries []
    simpa [bucketsJoin, _group_entries_by_date] using this
  refine ⟨hperm, ?_, ?_, ?_⟩
  · exact groupDates_inv entries [] (by simp)
  · exact groupKeys_nodup entries [] (by simp)
  · intro a
    rw [← countAction_bucketsJoin]
    exact countAction_perm _ _ hperm a

/-- Witness for C7: two same-day entries land in the single bucket keyed by
their common date. -/
theorem c7_grouping_partitions_witness :
    dateKey (⟨⟨1000, some Tz.berlin⟩, Action.upgraded, "b".data, "2".data⟩ : Entry) =
      (1970, 1, 1) :=
  (c7_grouping_partitions
      [⟨⟨0, some Tz.berlin⟩, Action.installed, "a".data, "1".data⟩,
       ⟨⟨1000, some Tz.berlin⟩, Action.upgraded, "b".data, "2".data⟩]).2.1
    (1970, 1, 1)
    [⟨⟨0, some Tz.berlin⟩, Action.installed, "a".data, "1".data⟩,
     ⟨⟨1000, some Tz.berlin⟩, Action.upgraded, "b".data, "2".data⟩]
    (by decide)
    ⟨⟨1000, some Tz.berlin⟩, Action.upgraded, "b".data, "2".data⟩
    (by decide)

end CachyHist
